import Mathlib

/-!
Shallow embedding of src/scripts/sum_check.py (sum-check protocol over GF(p)
built on sympy).

Modelling conventions, all taken from the source and from sympy semantics:

* A sympy `ModularInteger` over `GF(p)` stores a canonical value in `[0, p)`;
  constructing `F(x)` reduces `x` modulo `p`.  We represent such stored values
  as `ℕ` and perform the arithmetic with an explicit `% p`.
* sympy's `GF(p)` defaults to the symmetric representation: converting a field
  element out of the domain (as happens when `Poly.eval` evaluates the last
  generator, and when a fully-substituted `Poly.subs` collapses to a number)
  yields the representative in `(-p/2, p/2]`: `a` if `a <= p / 2`, else
  `a - p`.  This is `symrep` below.  The python code re-canonicalises such
  values with `% F.mod` everywhere except for `H` (line 91).
* A `Poly` is a list of monomials: coefficient (canonical residue) together
  with the exponents of the generators `X_0 .. X_{v-1}`.  `nvars` records the
  number of generators of the original polynomial (`len(g.gens)` in python).
* Substituting a value for a generator (`Poly.subs` with a number) multiplies
  each coefficient by `value ^ exponent` in the field and removes the
  generator; we keep the slot and set its exponent to `0`, which evaluates
  identically.
* `input()` responses are scripted as a `List Response`; a run that would
  block forever waiting for input is represented by the `blocked` outcome.
* Python dicts keyed by round index are association lists; the lookup
  `univariate[j - 1]` at `j = 0` is a lookup of the integer key `-1`, which
  raises `KeyError` (the `keyError` outcome).
-/

/-- Symmetric representative used by sympy's `GF(p)` when converting a field
element (stored canonically in `[0, p)`) to a sympy Integer. -/
def symrep (p a : ℕ) : ℤ :=
  if a ≤ p / 2 then (a : ℤ) else (a : ℤ) - (p : ℤ)

/-- A multivariate polynomial over GF(p): number of generators and a list of
monomials (canonical coefficient, exponent list for `X_0 .. X_{nvars-1}`). -/
structure Mv (p : ℕ) where
  nvars : ℕ
  terms : List (ℕ × List ℕ)
  deriving DecidableEq

/-- Product of `a i ^ e i` over the exponent list `e` starting at index `i`. -/
def prodPow (a : ℕ → ℕ) : ℕ → List ℕ → ℕ
  | _, [] => 1
  | i, x :: xs => a i ^ x * prodPow a (i + 1) xs

/-- Full evaluation of the polynomial at the assignment `a`, producing the
canonical residue in `[0, p)` (the value of the `ModularInteger` that sympy
computes in the domain before converting it out). -/
def Mv.evalNat {p : ℕ} (g : Mv p) (a : ℕ → ℕ) : ℕ :=
  ((g.terms.map (fun t => t.1 * prodPow a 0 t.2)).sum) % p

/-- `Poly.subs`/`Poly.eval` with a numeric value for generator `i`: each
coefficient is multiplied by `c ^ exponent` in the field and the exponent
slot is cleared. -/
def Mv.bind1 {p : ℕ} (g : Mv p) (i c : ℕ) : Mv p :=
  ⟨g.nvars, g.terms.map (fun t => ((t.1 * c ^ (t.2.getD i 0)) % p, t.2.set i 0))⟩

/-- Sum of two polynomials (`Poly.__add__`, up to normalisation of the
monomial list, which no downstream comparison observes). -/
def Mv.add {p : ℕ} (g h : Mv p) : Mv p :=
  ⟨g.nvars, g.terms ++ h.terms⟩

/-- Summation of the polynomial over all boolean assignments of the listed
generators (the `sum(... for b in product([0, 1], repeat=k))` reduction of
lines 122-125). -/
def boolSum {p : ℕ} (g : Mv p) : List ℕ → Mv p
  | [] => g
  | i :: rest => (boolSum (g.bind1 i 0) rest).add (boolSum (g.bind1 i 1) rest)

/-- Substitute values `cs` for the generators starting at index `i`
(`g.subs({X[i]: rand[i] for i in range(j)})` binds indices `0 .. j-1`). -/
def bindAux {p : ℕ} : Mv p → ℕ → List ℕ → Mv p
  | g, _, [] => g
  | g, i, c :: cs => bindAux (g.bind1 i c) (i + 1) cs

/-- Bind generators `0 .. cs.length - 1` to the values `cs`. -/
def bindRands {p : ℕ} (g : Mv p) (cs : List ℕ) : Mv p :=
  bindAux g 0 cs

/-- Point assignment: generator `j` takes the value `c`, all others `0`
(evaluating a univariate polynomial in `X_j` at `c`; the filler is never
consulted because every other exponent slot is `0`). -/
def pt (j c : ℕ) : ℕ → ℕ :=
  fun i => if i = j then c else 0

/-- All tuples of `itertools.product([0, 1], repeat=n)`, first coordinate
varying slowest. -/
def bitTuples : ℕ → List (List ℕ)
  | 0 => [[]]
  | n + 1 => (bitTuples n).map (fun l => 0 :: l) ++ (bitTuples n).map (fun l => 1 :: l)

/-- Line 91: `H = sum(g.eval(...) for b in product([0,1], repeat=v))` — the
plain integer sum of the symmetric representatives of the evaluations of `g`
over the boolean hypercube.  Note that this sum is NOT reduced modulo `p`. -/
def totalSum (p : ℕ) (g : Mv p) : ℤ :=
  ((bitTuples g.nvars).map (fun bl => symrep p (g.evalNat (fun i => bl.getD i 0)))).sum

/-- One scripted response to `input()`: cancellation (`'c'`), a string that
parses as an integer, or a malformed string. -/
inductive Response where
  | cancel
  | intVal (n : ℤ)
  | malformed
  deriving DecidableEq

/-- The retry loop of `input_random_field_element` (lines 275-296), threading
the attempt counter, the remaining scripted responses and the number of
`input()` calls made.  Outer `none` means the script ran out of responses
(python would block on `input()`); `some (r, used)` means the function
returned `r` after consuming `used` responses. -/
def irfeRun : Option ℕ → ℕ → List Response → ℕ → Option (Option ℤ × ℕ)
  | m, attempts, inputs, used =>
    if m = some attempts then some (none, used)
    else
      match inputs with
      | [] => none
      | Response.cancel :: _ => some (none, used + 1)
      | Response.intVal n :: _ => some (some n, used + 1)
      | Response.malformed :: rest =>
        match m with
        | none => irfeRun none attempts rest (used + 1)
        | some mval =>
          if attempts + 1 = mval then some (none, used + 1)
          else irfeRun (some mval) (attempts + 1) rest (used + 1)

/-- `input_random_field_element(max_attempts)` run against the scripted
responses: `some (r, used)` when it returns `r` having consumed `used`
responses, `none` when the script is exhausted while python would still be
waiting for input. -/
def input_random_field_element (m : Option ℕ) (inputs : List Response) :
    Option (Option ℤ × ℕ) :=
  irfeRun m 0 inputs 0

/-- `random_field_element(field, user_input)` (lines 239-262).  In user-input
mode it runs `input_random_field_element` and wraps an integer response into
the field (`field(x)` stores `x % p`); in random mode it draws `rngv` (the
scripted result of `random.randint(0, p - 1)`) and wraps it likewise.
Returns `some (some value, used)` on success, `some (none, used)` on
cancellation or exhaustion, `none` when the interactive script is
exhausted. -/
def random_field_element (p : ℕ) (ui : Bool) (m : Option ℕ) (rngv : ℕ)
    (inputs : List Response) : Option (Option ℕ × ℕ) :=
  if ui then
    match input_random_field_element m inputs with
    | none => none
    | some (some n, used) => some (some ((n % (p : ℤ)).toNat), used)
    | some (none, used) => some (none, used)
  else some (some (rngv % p), 0)

/-- A value of the `univariate` dict: a polynomial (rounds `j < v`) or the
sympy Integer that `g.subs` collapses to when every generator is substituted
(round `j = v`, line 118). -/
inductive UEntry (p : ℕ) where
  | poly (q : Mv p)
  | num (z : ℤ)
  deriving DecidableEq

/-- The protocol state accumulated by `sum_check_protocol`: the dicts
`univariate`, `rand_eval`, `sum_check` as insertion-ordered association
lists, the `rand` list, the claimed total `H`, the boolean results printed by
`consistency_check` in round order, and whether the run broke out early
("Protocol terminated"). -/
structure SCState (p : ℕ) where
  H : ℤ
  univariate : List (ℕ × UEntry p)
  rand : List ℕ
  rand_eval : List (ℕ × ℤ)
  sum_check : List (ℕ × ℤ)
  checks : List Bool
  terminated : Bool
  deriving DecidableEq

/-- Outcome of a run of `sum_check_protocol`: `invalidModulus` models the
early `return None` for a non-prime modulus; `blocked` models python waiting
forever on `input()` (script exhausted); `keyError` models an uncaught
`KeyError`/`IndexError` on a dict/list access; `result st` is the tuple the
function returns. -/
inductive SCResult (p : ℕ) where
  | invalidModulus
  | blocked
  | keyError
  | result (st : SCState p)
  deriving DecidableEq

/-- Dict lookup with an integer key (python `univariate[j - 1]`, which at
`j = 0` looks up `-1` and raises `KeyError`). -/
def univLookup {p : ℕ} (l : List (ℕ × UEntry p)) (k : ℤ) : Option (UEntry p) :=
  (l.find? (fun e => (e.1 : ℤ) == k)).map Prod.snd

/-- Dict lookup with a natural key (`rand_eval[j]`, `sum_check[j]`). -/
def lookupV (l : List (ℕ × ℤ)) (k : ℕ) : Option ℤ :=
  (l.find? (fun e => e.1 == k)).map Prod.snd

/-- `consistency_check` (lines 149-234), restricted to the data the check
itself reads: the branch on the round index and the comparison it performs.
The arguments `X`, `rand` and `univariate` of the python function feed only
the printed transcript and are omitted.  `none` models a `KeyError` on a
missing dict entry (or the `UnboundLocalError` python would raise for
`j > v`); in every reachable call the result is `some`. -/
def consistency_check (j v : ℕ) (H : ℤ) (rand_eval sum_check : List (ℕ × ℤ)) :
    Option Bool :=
  if j = 0 then
    (lookupV sum_check 0).map (fun s => H == s)
  else if j < v then
    match lookupV rand_eval (j - 1), lookupV sum_check j with
    | some e, some s => some (e == s)
    | _, _ => none
  else if j = v then
    match lookupV rand_eval j, lookupV sum_check j with
    | some e, some s => some (e == s)
    | _, _ => none
  else none

/-- Result of one loop iteration: either the loop continues with an updated
state and remaining input script, or the whole run halts with a result. -/
inductive RoundOut (p : ℕ) where
  | ok (st : SCState p) (inputs : List Response)
  | halt (r : SCResult p)

/-- Run `consistency_check` for round `j` and record its printed verdict
(lines 134-144 and 228-234). -/
def checkAndGo {p : ℕ} (v j : ℕ) (inputs : List Response) (st : SCState p) :
    RoundOut p :=
  match consistency_check j v st.H st.rand_eval st.sum_check with
  | some b => RoundOut.ok { st with checks := st.checks ++ [b] } inputs
  | none => RoundOut.halt SCResult.keyError

/-- Rounds `j < v`, lines 120-127: `univariate[j]` becomes the boolean sum of
the working polynomial over generators `j+1 .. v-1`, and
`sum_check[j] = (univariate[j](0) + univariate[j](1)) % p` where the two
evaluations leave the domain as symmetric representatives. -/
def roundLess {p : ℕ} (v j : ℕ) (work : Mv p) (inputs : List Response)
    (st : SCState p) : RoundOut p :=
  let uj := boolSum work (List.range' (j + 1) (v - 1 - j))
  let sc : ℤ :=
    (symrep p (uj.evalNat (pt j 0)) + symrep p (uj.evalNat (pt j 1))) % (p : ℤ)
  checkAndGo v j inputs
    { st with univariate := st.univariate ++ [(j, UEntry.poly uj)],
              sum_check := st.sum_check ++ [(j, sc)] }

/-- Round `j = v`, lines 128-132: look up `univariate[j - 1]` (a `KeyError`
when `v = 0`), evaluate it at `rand[j - 1]`, and recompute the oracle value
`g.subs({X[i]: rand[i]}) % p`. -/
def finalTail {p : ℕ} (v j : ℕ) (g : Mv p) (inputs : List Response)
    (st : SCState p) : RoundOut p :=
  match univLookup st.univariate ((j : ℤ) - 1) with
  | some (UEntry.poly uprev) =>
    match st.rand[j - 1]? with
    | some rj =>
      let rev : ℤ := symrep p (uprev.evalNat (pt (j - 1) rj)) % (p : ℤ)
      let scv : ℤ := symrep p ((bindRands g st.rand).evalNat (fun _ => 0)) % (p : ℤ)
      checkAndGo v j inputs
        { st with rand_eval := st.rand_eval ++ [(j, rev)],
                  sum_check := st.sum_check ++ [(j, scv)] }
    | none => RoundOut.halt SCResult.keyError
  | _ => RoundOut.halt SCResult.keyError

/-- One iteration of the round loop of `sum_check_protocol` (lines 99-144)
for round index `j`. -/
def scRound {p : ℕ} (v : ℕ) (g : Mv p) (ui : Bool) (rng : ℕ → ℕ) (j : ℕ)
    (inputs : List Response) (st : SCState p) : RoundOut p :=
  if j = 0 then
    if 0 < v then
      roundLess v 0 g inputs st
    else
      finalTail v 0 g inputs
        { st with univariate := st.univariate ++ [(0, UEntry.poly g)] }
  else
    match random_field_element p ui none (rng st.rand.length) inputs with
    | none => RoundOut.halt SCResult.blocked
    | some (none, _) =>
      RoundOut.halt (SCResult.result { st with terminated := true })
    | some (some rfe, used) =>
      let inputs' := inputs.drop used
      let rand' := st.rand ++ [rfe]
      match univLookup st.univariate ((j : ℤ) - 1) with
      | some (UEntry.poly uprev) =>
        match rand'[j - 1]? with
        | some rj =>
          let re : ℤ := symrep p (uprev.evalNat (pt (j - 1) rj)) % (p : ℤ)
          let st1 := { st with rand := rand',
                               rand_eval := st.rand_eval ++ [(j - 1, re)] }
          if j < v then
            roundLess v j (bindRands g rand') inputs' st1
          else
            finalTail v j g inputs'
              { st1 with univariate := st1.univariate ++
                  [(j, UEntry.num (symrep p ((bindRands g rand').evalNat (fun _ => 0))))] }
        | none => RoundOut.halt SCResult.keyError
      | _ => RoundOut.halt SCResult.keyError

/-- The `for j in range(v + 1)` loop, with `break`/errors propagated as a
halting result. -/
def scLoop {p : ℕ} (v : ℕ) (g : Mv p) (ui : Bool) (rng : ℕ → ℕ) :
    List ℕ → List Response → SCState p → SCResult p
  | [], _, st => SCResult.result st
  | j :: rest, inputs, st =>
    match scRound v g ui rng j inputs st with
    | RoundOut.halt r => r
    | RoundOut.ok st' inputs' => scLoop v g ui rng rest inputs' st'

/-- The state at line 94-97: `H` computed, every container empty. -/
def initState (p : ℕ) (g : Mv p) : SCState p :=
  { H := totalSum p g, univariate := [], rand := [], rand_eval := [],
    sum_check := [], checks := [], terminated := false }

/-- `sum_check_protocol(g, user_input)` (lines 62-146).  `rng` scripts the
successive results of `random.randint(0, p - 1)` and `inputs` scripts the
responses to `input()`. -/
def sum_check_protocol (p : ℕ) (g : Mv p) (ui : Bool) (rng : ℕ → ℕ)
    (inputs : List Response) : SCResult p :=
  if Nat.Prime p then
    scLoop g.nvars g ui rng (List.range (g.nvars + 1)) inputs (initState p g)
  else SCResult.invalidModulus

/-- The list of boolean check verdicts of a completed (or terminated) run. -/
def SCResult.checksOf {p : ℕ} : SCResult p → Option (List Bool)
  | SCResult.result st => some st.checks
  | _ => none

/-- Whether a returned run broke out of the loop early ("Protocol
terminated"). -/
def SCResult.isTerminated {p : ℕ} : SCResult p → Option Bool
  | SCResult.result st => some st.terminated
  | _ => none

/-- The final verdict printed at round `v`: `some true` is
"FINAL CHECK PASSED: ACCEPT", `some false` is "CHECK FAILED: REJECT",
`none` means the run never reached the final check. -/
def SCState.verdict {p : ℕ} (st : SCState p) : Option Bool :=
  if st.terminated then none else st.checks.getLast?

/-- Final verdict of a run outcome. -/
def SCResult.finalVerdict {p : ℕ} : SCResult p → Option Bool
  | SCResult.result st => st.verdict
  | _ => none

/-- Closed form of the final value of `univariate[j]` for a round `j < v`,
when the challenges drawn so far are `r 0, r 1, ...`: the polynomial `g` with
generators `0 .. j-1` bound to the challenges, summed over all boolean
assignments of generators `j+1 .. v-1`. -/
def univAt (p v : ℕ) (g : Mv p) (r : ℕ → ℕ) (j : ℕ) : Mv p :=
  boolSum (bindRands g ((List.range j).map r)) (List.range' (j + 1) (v - 1 - j))

/-- Closed form of `rand_eval[j]` as set in round `j + 1` (line 116). -/
def revalAt (p v : ℕ) (g : Mv p) (r : ℕ → ℕ) (j : ℕ) : ℤ :=
  symrep p ((univAt p v g r j).evalNat (pt j (r j))) % (p : ℤ)

/-- Closed form of `sum_check[j]` for `j < v` (line 127). -/
def scAt (p v : ℕ) (g : Mv p) (r : ℕ → ℕ) (j : ℕ) : ℤ :=
  (symrep p ((univAt p v g r j).evalNat (pt j 0)) +
    symrep p ((univAt p v g r j).evalNat (pt j 1))) % (p : ℤ)

/-- Closed form of the boolean verdict of `consistency_check` at round
`j < v`. -/
def chkAt (p v : ℕ) (g : Mv p) (r : ℕ → ℕ) (j : ℕ) : Bool :=
  if j = 0 then totalSum p g == scAt p v g r 0
  else revalAt p v g r (j - 1) == scAt p v g r j

/-- The protocol state after rounds `0 .. j-1` have completed (so `j - 1`
challenges have been drawn), with challenge values `r 0, r 1, ...`. -/
def stateAfter (p v : ℕ) (g : Mv p) (r : ℕ → ℕ) (j : ℕ) : SCState p :=
  { H := totalSum p g,
    univariate := (List.range j).map (fun i => (i, UEntry.poly (univAt p v g r i))),
    rand := (List.range (j - 1)).map r,
    rand_eval := (List.range (j - 1)).map (fun i => (i, revalAt p v g r i)),
    sum_check := (List.range j).map (fun i => (i, scAt p v g r i)),
    checks := (List.range j).map (chkAt p v g r),
    terminated := false }

/-- Closed form of the oracle value `sum_check[v]` (line 132). -/
def scFin (p v : ℕ) (g : Mv p) (r : ℕ → ℕ) : ℤ :=
  symrep p ((bindRands g ((List.range v).map r)).evalNat (fun _ => 0)) % (p : ℤ)

/-- Closed form of the final-round verdict of `consistency_check`. -/
def chkFin (p v : ℕ) (g : Mv p) (r : ℕ → ℕ) : Bool :=
  revalAt p v g r (v - 1) == scFin p v g r

/-- The full state returned by a run in which all `v` challenge draws
succeeded with values `r 0 .. r (v-1)`. -/
def finalState (p v : ℕ) (g : Mv p) (r : ℕ → ℕ) : SCState p :=
  { H := totalSum p g,
    univariate := (List.range v).map (fun i => (i, UEntry.poly (univAt p v g r i))) ++
      [(v, UEntry.num (symrep p ((bindRands g ((List.range v).map r)).evalNat (fun _ => 0))))],
    rand := (List.range v).map r,
    rand_eval := (List.range v).map (fun i => (i, revalAt p v g r i)) ++
      [(v, revalAt p v g r (v - 1))],
    sum_check := (List.range v).map (fun i => (i, scAt p v g r i)) ++ [(v, scFin p v g r)],
    checks := (List.range v).map (chkAt p v g r) ++ [chkFin p v g r],
    terminated := false }

theorem univLookup_range' {p : ℕ} (F : ℕ → UEntry p) (n : ℕ) :
    ∀ (s k : ℕ) (tail : List (ℕ × UEntry p)), s ≤ k → k < s + n →
      univLookup ((List.range' s n).map (fun i => (i, F i)) ++ tail) (k : ℤ) = some (F k) := by
  induction n with
  | zero => intro s k tail h1 h2; omega
  | succ n ih =>
    intro s k tail h1 h2
    rw [List.range'_succ, List.map_cons, List.cons_append]
    by_cases hk : s = k
    · subst hk
      rw [univLookup, List.find?_cons_of_pos _ (by simp)]
      rfl
    · rw [univLookup, List.find?_cons_of_neg _
        (by simp only [beq_iff_eq, Int.natCast_inj]; exact hk)]
      exact ih (s + 1) k tail (by omega) (by omega)

theorem univLookup_range {p : ℕ} (F : ℕ → UEntry p) (j k : ℕ) (h : k < j) :
    univLookup ((List.range j).map (fun i => (i, F i))) (k : ℤ) = some (F k) := by
  have := univLookup_range' F j 0 k [] (by omega) (by omega)
  simpa [List.range_eq_range'] using this

theorem lookupV_range' (G : ℕ → ℤ) (n : ℕ) :
    ∀ (s k : ℕ) (tail : List (ℕ × ℤ)), s ≤ k → k < s + n →
      lookupV ((List.range' s n).map (fun i => (i, G i)) ++ tail) k = some (G k) := by
  induction n with
  | zero => intro s k tail h1 h2; omega
  | succ n ih =>
    intro s k tail h1 h2
    rw [List.range'_succ, List.map_cons, List.cons_append]
    by_cases hk : s = k
    · subst hk
      rw [lookupV, List.find?_cons_of_pos _ (by simp)]
      rfl
    · rw [lookupV, List.find?_cons_of_neg _
        (by simp only [beq_iff_eq]; exact hk)]
      exact ih (s + 1) k tail (by omega) (by omega)

theorem lookupV_range (G : ℕ → ℤ) (j k : ℕ) (h : k < j) :
    lookupV ((List.range j).map (fun i => (i, G i))) k = some (G k) := by
  have := lookupV_range' G j 0 k [] (by omega) (by omega)
  simpa [List.range_eq_range'] using this

theorem lookupV_skip (G : ℕ → ℤ) (n : ℕ) :
    ∀ (s k : ℕ) (tail : List (ℕ × ℤ)), s + n ≤ k →
      lookupV ((List.range' s n).map (fun i => (i, G i)) ++ tail) k = lookupV tail k := by
  induction n with
  | zero => intro s k tail h; simp [List.range']
  | succ n ih =>
    intro s k tail h
    rw [List.range'_succ, List.map_cons, List.cons_append]
    rw [lookupV, List.find?_cons_of_neg _ (by simp only [beq_iff_eq]; omega)]
    exact ih (s + 1) k tail (by omega)

theorem lookupV_last (G : ℕ → ℤ) (j k : ℕ) (z : ℤ) (h : j ≤ k) :
    lookupV ((List.range j).map (fun i => (i, G i)) ++ [(k, z)]) k = some z := by
  rw [List.range_eq_range', lookupV_skip G j 0 k [(k, z)] (by omega)]
  rw [lookupV, List.find?_cons_of_pos _ (by simp)]
  rfl

theorem getElem?_map_range (r : ℕ → ℕ) (n k : ℕ) (h : k < n) :
    ((List.range n).map r)[k]? = some (r k) := by
  simp [List.getElem?_map, List.getElem?_range, h]

theorem map_range_snoc {α : Type} (f : ℕ → α) (j : ℕ) :
    (List.range j).map f ++ [f j] = (List.range (j + 1)).map f := by
  rw [List.range_succ, List.map_append]
  rfl

theorem map_range_snoc_pred {α : Type} (f : ℕ → α) (j : ℕ) (h : 1 ≤ j) :
    (List.range (j - 1)).map f ++ [f (j - 1)] = (List.range j).map f := by
  conv_rhs => rw [show j = (j - 1) + 1 by omega]
  exact map_range_snoc f (j - 1)

theorem scRound_cancel {p : ℕ} (v : ℕ) (g : Mv p) (ui : Bool) (rng : ℕ → ℕ)
    (j : ℕ) (hj : j ≠ 0) (inputs : List Response) (used : ℕ) (st : SCState p)
    (hdraw : random_field_element p ui none (rng st.rand.length) inputs = some (none, used)) :
    scRound v g ui rng j inputs st =
      RoundOut.halt (SCResult.result { st with terminated := true }) := by
  simp only [scRound, if_neg hj, hdraw]

theorem scRound_zero {p : ℕ} (v : ℕ) (g : Mv p) (ui : Bool) (rng r : ℕ → ℕ)
    (inputs : List Response) (hv : 0 < v) :
    scRound v g ui rng 0 inputs (initState p g) =
      RoundOut.ok (stateAfter p v g r 1) inputs := by
  have hcc : consistency_check 0 v (totalSum p g) [] [(0, scAt p v g r 0)] =
      some (totalSum p g == scAt p v g r 0) := by
    simp [consistency_check, lookupV]
  simp only [scRound, if_pos rfl, if_pos hv, roundLess, checkAndGo, initState,
    List.nil_append]
  rw [show (boolSum g (List.range' (0 + 1) (v - 1 - 0)) : Mv p) = univAt p v g r 0 from rfl]
  rw [show ((symrep p ((univAt p v g r 0).evalNat (pt 0 0)) +
      symrep p ((univAt p v g r 0).evalNat (pt 0 1))) % (p : ℤ)) = scAt p v g r 0 from rfl]
  rw [hcc]
  rfl

theorem scRound_mid {p : ℕ} (v : ℕ) (g : Mv p) (ui : Bool) (rng r : ℕ → ℕ)
    (j : ℕ) (h1 : 1 ≤ j) (hjv : j < v) (inputs : List Response) (used : ℕ)
    (hdraw : random_field_element p ui none (rng (j - 1)) inputs
      = some (some (r (j - 1)), used)) :
    scRound v g ui rng j inputs (stateAfter p v g r j) =
      RoundOut.ok (stateAfter p v g r (j + 1)) (inputs.drop used) := by
  have hne : j ≠ 0 := by omega
  simp only [scRound, if_neg hne, stateAfter]
  simp only [List.length_map, List.length_range]
  rw [hdraw]
  simp only []
  rw [map_range_snoc_pred r j h1]
  rw [show ((j : ℤ) - 1) = ((j - 1 : ℕ) : ℤ) by omega]
  rw [univLookup_range (fun i => UEntry.poly (univAt p v g r i)) j (j - 1) (by omega)]
  simp only []
  rw [getElem?_map_range r j (j - 1) (by omega)]
  simp only []
  rw [if_pos hjv]
  simp only [roundLess, checkAndGo]
  rw [show (symrep p ((univAt p v g r (j - 1)).evalNat (pt (j - 1) (r (j - 1)))) % (p : ℤ))
      = revalAt p v g r (j - 1) from rfl]
  rw [show (boolSum (bindRands g ((List.range j).map r)) (List.range' (j + 1) (v - 1 - j)))
      = univAt p v g r j from rfl]
  rw [show ((symrep p ((univAt p v g r j).evalNat (pt j 0)) +
      symrep p ((univAt p v g r j).evalNat (pt j 1))) % (p : ℤ)) = scAt p v g r j from rfl]
  have hcc : consistency_check j v (totalSum p g)
      ((List.range (j - 1)).map (fun i => (i, revalAt p v g r i)) ++
        [(j - 1, revalAt p v g r (j - 1))])
      ((List.range j).map (fun i => (i, scAt p v g r i)) ++ [(j, scAt p v g r j)])
      = some (revalAt p v g r (j - 1) == scAt p v g r j) := by
    simp only [consistency_check, if_neg hne, if_pos hjv]
    rw [lookupV_last (fun i => revalAt p v g r i) (j - 1) (j - 1)
      (revalAt p v g r (j - 1)) (le_refl _)]
    rw [lookupV_last (fun i => scAt p v g r i) j j (scAt p v g r j) (le_refl _)]
  rw [hcc]
  simp only []
  rw [map_range_snoc (fun i => (i, UEntry.poly (univAt p v g r i))) j]
  rw [map_range_snoc_pred (fun i => (i, revalAt p v g r i)) j h1]
  rw [map_range_snoc (fun i => (i, scAt p v g r i)) j]
  rw [show (revalAt p v g r (j - 1) == scAt p v g r j) = chkAt p v g r j from
    (by simp [chkAt, hne])]
  rw [map_range_snoc (chkAt p v g r) j]
  rfl

theorem scRound_final {p : ℕ} (v : ℕ) (g : Mv p) (ui : Bool) (rng r : ℕ → ℕ)
    (hv : 1 ≤ v) (inputs : List Response) (used : ℕ)
    (hdraw : random_field_element p ui none (rng (v - 1)) inputs
      = some (some (r (v - 1)), used)) :
    scRound v g ui rng v inputs (stateAfter p v g r v) =
      RoundOut.ok (finalState p v g r) (inputs.drop used) := by
  have hne : v ≠ 0 := by omega
  simp only [scRound, if_neg hne, stateAfter]
  simp only [List.length_map, List.length_range]
  rw [hdraw]
  simp only []
  rw [map_range_snoc_pred r v hv]
  rw [show ((v : ℤ) - 1) = ((v - 1 : ℕ) : ℤ) by omega]
  rw [univLookup_range (fun i => UEntry.poly (univAt p v g r i)) v (v - 1) (by omega)]
  simp only []
  rw [getElem?_map_range r v (v - 1) (by omega)]
  simp only []
  rw [if_neg (lt_irrefl v)]
  rw [show (symrep p ((univAt p v g r (v - 1)).evalNat (pt (v - 1) (r (v - 1)))) % (p : ℤ))
      = revalAt p v g r (v - 1) from rfl]
  rw [map_range_snoc_pred (fun i => (i, revalAt p v g r i)) v hv]
  simp only [finalTail]
  rw [show ((v : ℤ) - 1) = ((v - 1 : ℕ) : ℤ) by omega]
  rw [List.range_eq_range' v]
  rw [univLookup_range' (fun i => UEntry.poly (univAt p v g r i)) v 0 (v - 1) _
    (by omega) (by omega)]
  simp only []
  rw [← List.range_eq_range' v]
  rw [getElem?_map_range r v (v - 1) (by omega)]
  simp only []
  rw [show (symrep p ((univAt p v g r (v - 1)).evalNat (pt (v - 1) (r (v - 1)))) % (p : ℤ))
      = revalAt p v g r (v - 1) from rfl]
  rw [show (symrep p ((bindRands g ((List.range v).map r)).evalNat (fun _ => 0)) % (p : ℤ))
      = scFin p v g r from rfl]
  simp only [checkAndGo]
  have hcc : consistency_check v v (totalSum p g)
      ((List.range v).map (fun i => (i, revalAt p v g r i)) ++ [(v, revalAt p v g r (v - 1))])
      ((List.range v).map (fun i => (i, scAt p v g r i)) ++ [(v, scFin p v g r)])
      = some (revalAt p v g r (v - 1) == scFin p v g r) := by
    simp only [consistency_check, if_neg hne, if_neg (lt_irrefl v), if_pos rfl]
    rw [lookupV_last (fun i => revalAt p v g r i) v v (revalAt p v g r (v - 1)) (le_refl _)]
    rw [lookupV_last (fun i => scAt p v g r i) v v (scFin p v g r) (le_refl _)]
    simp
  rw [hcc]
  simp only []
  rw [show (revalAt p v g r (v - 1) == scFin p v g r) = chkFin p v g r from rfl]
  rfl

theorem scLoop_random (p v : ℕ) (g : Mv p) (rng : ℕ → ℕ) (inputs : List Response) :
    ∀ (n k : ℕ), 1 ≤ k → k + n = v →
      scLoop v g false rng (List.range' k (v + 1 - k)) inputs
        (stateAfter p v g (fun i => rng i % p) k)
        = SCResult.result (finalState p v g (fun i => rng i % p)) := by
  intro n
  induction n with
  | zero =>
    intro k h1 hk
    have hkv : k = v := by omega
    subst hkv
    rw [show k + 1 - k = 1 by omega, List.range'_succ]
    simp only [scLoop]
    rw [scRound_final k g false rng (fun i => rng i % p) h1 inputs 0 rfl]
  | succ n ih =>
    intro k h1 hk
    have hkv : k < v := by omega
    rw [show v + 1 - k = (v - k) + 1 by omega, List.range'_succ]
    simp only [scLoop]
    rw [scRound_mid v g false rng (fun i => rng i % p) k h1 hkv inputs 0 rfl]
    simp only [List.drop_zero]
    have hgoal := ih (k + 1) (by omega) (by omega)
    rw [show v + 1 - (k + 1) = v - k by omega] at hgoal
    exact hgoal

theorem protocol_random (p : ℕ) (g : Mv p) (rng : ℕ → ℕ) (inputs : List Response)
    (hp : Nat.Prime p) (hv : 1 ≤ g.nvars) :
    sum_check_protocol p g false rng inputs
      = SCResult.result (finalState p g.nvars g (fun i => rng i % p)) := by
  rw [sum_check_protocol, if_pos hp, List.range_eq_range', List.range'_succ]
  simp only [scLoop]
  rw [scRound_zero g.nvars g false rng (fun i => rng i % p) inputs (by omega)]
  simp only []
  have hgoal := scLoop_random p g.nvars g rng inputs (g.nvars - 1) 1 (le_refl 1) (by omega)
  rw [show g.nvars + 1 - 1 = g.nvars by omega] at hgoal
  exact hgoal

theorem scLoop_cancel (p v : ℕ) (g : Mv p) (rng : ℕ → ℕ) (ints : List ℤ)
    (rest : List Response) (jc : ℕ) (h1 : 1 ≤ jc) (h2 : jc ≤ v)
    (hlen : ints.length = jc - 1) :
    ∀ (n k : ℕ), 1 ≤ k → k + n = jc →
      scLoop v g true rng (List.range' k (v + 1 - k))
        ((ints.drop (k - 1)).map Response.intVal ++ Response.cancel :: rest)
        (stateAfter p v g (fun i => ((ints.getD i 0) % (p : ℤ)).toNat) k)
        = SCResult.result { stateAfter p v g (fun i => ((ints.getD i 0) % (p : ℤ)).toNat) jc
            with terminated := true } := by
  set rI : ℕ → ℕ := fun i => ((ints.getD i 0) % (p : ℤ)).toNat with hrI
  intro n
  induction n with
  | zero =>
    intro k hk1 hkj
    have hkj0 : k = jc := by omega
    subst hkj0
    rw [show ints.drop (k - 1) = [] from List.drop_eq_nil_of_le (by omega)]
    simp only [List.map_nil, List.nil_append]
    rw [show v + 1 - k = (v - k) + 1 by omega, List.range'_succ]
    simp only [scLoop]
    rw [scRound_cancel v g true rng k (by omega) (Response.cancel :: rest) 1
      (stateAfter p v g rI k) rfl]
  | succ n ih =>
    intro k hk1 hkj
    have hkv : k < v := by omega
    have hk1' : k - 1 < ints.length := by omega
    rw [show v + 1 - k = (v - k) + 1 by omega, List.range'_succ]
    simp only [scLoop]
    rw [List.drop_eq_getElem_cons hk1']
    simp only [List.map_cons, List.cons_append]
    rw [scRound_mid v g true rng rI k hk1 hkv _ 1 ?hd]
    case hd =>
      have hgd : rI (k - 1) = ((ints[k - 1] : ℤ) % (p : ℤ)).toNat := by
        rw [hrI]
        simp only []
        rw [List.getD_eq_getElem ints 0 hk1']
      rw [hgd]
      rfl
    simp only [List.drop_succ_cons, List.drop_zero]
    have hgoal := ih (k + 1) (by omega) (by omega)
    rw [show v + 1 - (k + 1) = v - k by omega] at hgoal
    rw [show (k + 1) - 1 = k from rfl] at hgoal
    rw [show k - 1 + 1 = k by omega]
    exact hgoal

theorem protocol_cancel (p : ℕ) (g : Mv p) (rng : ℕ → ℕ) (ints : List ℤ)
    (rest : List Response) (jc : ℕ) (hp : Nat.Prime p) (h1 : 1 ≤ jc)
    (h2 : jc ≤ g.nvars) (hlen : ints.length = jc - 1) :
    sum_check_protocol p g true rng (ints.map Response.intVal ++ Response.cancel :: rest)
      = SCResult.result { stateAfter p g.nvars g
          (fun i => ((ints.getD i 0) % (p : ℤ)).toNat) jc with terminated := true } := by
  rw [sum_check_protocol, if_pos hp, List.range_eq_range', List.range'_succ]
  simp only [scLoop]
  rw [scRound_zero g.nvars g true rng (fun i => ((ints.getD i 0) % (p : ℤ)).toNat)
    (ints.map Response.intVal ++ Response.cancel :: rest) (by omega)]
  simp only []
  have hgoal := scLoop_cancel p g.nvars g rng ints rest jc h1 h2 hlen (jc - 1) 1
    (le_refl 1) (by omega)
  rw [show g.nvars + 1 - 1 = g.nvars by omega] at hgoal
  rw [show (1 : ℕ) - 1 = 0 from rfl, List.drop_zero] at hgoal
  exact hgoal

/-- The canonical-residue invariant of the accumulated state: every stored
`rand` element lies in `[0, p)`, and every stored `rand_eval` and `sum_check`
value lies in `[0, p)`. -/
def InvB (p : ℕ) (st : SCState p) : Prop :=
  (∀ x ∈ st.rand, x < p) ∧ (∀ e ∈ st.rand_eval, 0 ≤ e.2 ∧ e.2 < (p : ℤ)) ∧
    (∀ e ∈ st.sum_check, 0 ≤ e.2 ∧ e.2 < (p : ℤ))

theorem emod_bounds {p : ℕ} (hp0 : 0 < p) (z : ℤ) :
    0 ≤ z % (p : ℤ) ∧ z % (p : ℤ) < (p : ℤ) :=
  ⟨Int.emod_nonneg z (by exact_mod_cast hp0.ne'),
    Int.emod_lt_of_pos z (by exact_mod_cast hp0)⟩

theorem rfe_lt {p : ℕ} (hp0 : 0 < p) (ui : Bool) (m : Option ℕ) (rngv : ℕ)
    (inputs : List Response) (x used : ℕ)
    (h : random_field_element p ui m rngv inputs = some (some x, used)) : x < p := by
  unfold random_field_element at h
  cases ui with
  | false =>
    simp at h
    obtain ⟨h1, _⟩ := h
    rw [← h1]
    exact Nat.mod_lt _ hp0
  | true =>
    rcases hin : input_random_field_element m inputs with _ | ⟨resp, used'⟩
    · rw [hin] at h
      simp at h
    · rcases resp with _ | n
      · rw [hin] at h
        simp at h
      · rw [hin] at h
        simp at h
        obtain ⟨h1, _⟩ := h
        obtain ⟨e1, e2⟩ := emod_bounds hp0 n
        omega

theorem checkAndGo_inv {p : ℕ} (v j : ℕ) (inputs : List Response) (st : SCState p)
    (hInv : InvB p st) :
    (∀ st' inputs', checkAndGo v j inputs st = RoundOut.ok st' inputs' → InvB p st') ∧
    (∀ st', checkAndGo v j inputs st = RoundOut.halt (SCResult.result st') → InvB p st') := by
  constructor
  · intro st' inputs' h
    unfold checkAndGo at h
    rcases hc : consistency_check j v st.H st.rand_eval st.sum_check with _ | b <;>
      rw [hc] at h <;> simp at h
    obtain ⟨h1, _⟩ := h
    rw [← h1]
    exact hInv
  · intro st' h
    unfold checkAndGo at h
    rcases hc : consistency_check j v st.H st.rand_eval st.sum_check with _ | b <;>
      rw [hc] at h <;> simp at h

theorem roundLess_inv {p : ℕ} (hp0 : 0 < p) (v j : ℕ) (work : Mv p)
    (inputs : List Response) (st : SCState p) (hInv : InvB p st) :
    (∀ st' inputs', roundLess v j work inputs st = RoundOut.ok st' inputs' → InvB p st') ∧
    (∀ st', roundLess v j work inputs st = RoundOut.halt (SCResult.result st') → InvB p st') := by
  obtain ⟨h1, h2, h3⟩ := hInv
  simp only [roundLess]
  refine checkAndGo_inv v j inputs _ ⟨h1, h2, ?_⟩
  intro e he
  rcases List.mem_append.1 he with hm | hm
  · exact h3 e hm
  · simp at hm
    rw [hm]
    exact emod_bounds hp0 _

theorem finalTail_inv {p : ℕ} (hp0 : 0 < p) (v j : ℕ) (g : Mv p)
    (inputs : List Response) (st : SCState p) (hInv : InvB p st) :
    (∀ st' inputs', finalTail v j g inputs st = RoundOut.ok st' inputs' → InvB p st') ∧
    (∀ st', finalTail v j g inputs st = RoundOut.halt (SCResult.result st') → InvB p st') := by
  obtain ⟨h1, h2, h3⟩ := hInv
  simp only [finalTail]
  rcases hu : univLookup st.univariate ((j : ℤ) - 1) with _ | u
  · exact ⟨fun st' inputs' h => by simp at h, fun st' h => by simp at h⟩
  · rcases u with q | z
    · rcases hr : st.rand[j - 1]? with _ | rj
      · exact ⟨fun st' inputs' h => by simp at h, fun st' h => by simp at h⟩
      · have hnew : InvB p { st with
            rand_eval := st.rand_eval ++
              [(j, symrep p (q.evalNat (pt (j - 1) rj)) % (p : ℤ))],
            sum_check := st.sum_check ++
              [(j, symrep p ((bindRands g st.rand).evalNat (fun _ => 0)) % (p : ℤ))] } := by
          refine ⟨h1, ?_, ?_⟩
          · intro e he
            rcases List.mem_append.1 he with hm | hm
            · exact h2 e hm
            · simp at hm
              rw [hm]
              exact emod_bounds hp0 _
          · intro e he
            rcases List.mem_append.1 he with hm | hm
            · exact h3 e hm
            · simp at hm
              rw [hm]
              exact emod_bounds hp0 _
        exact checkAndGo_inv v j inputs _ hnew
    · exact ⟨fun st' inputs' h => by simp at h, fun st' h => by simp at h⟩

theorem scRound_inv {p : ℕ} (hp0 : 0 < p) (v : ℕ) (g : Mv p) (ui : Bool)
    (rng : ℕ → ℕ) (j : ℕ) (inputs : List Response) (st : SCState p)
    (hInv : InvB p st) :
    (∀ st' inputs', scRound v g ui rng j inputs st = RoundOut.ok st' inputs' → InvB p st') ∧
    (∀ st', scRound v g ui rng j inputs st = RoundOut.halt (SCResult.result st') → InvB p st') := by
  by_cases hj : j = 0
  · simp only [scRound, if_pos hj]
    by_cases hv : 0 < v
    · simp only [if_pos hv]
      exact roundLess_inv hp0 v 0 g inputs st hInv
    · simp only [if_neg hv]
      obtain ⟨h1, h2, h3⟩ := hInv
      exact finalTail_inv hp0 v 0 g inputs _ ⟨h1, h2, h3⟩
  · simp only [scRound, if_neg hj]
    rcases hd : random_field_element p ui none (rng st.rand.length) inputs with _ | ⟨orfe, used⟩
    · exact ⟨fun st' inputs' h => by simp at h, fun st' h => by simp at h⟩
    · rcases orfe with _ | rfe
      · constructor
        · intro st' inputs' h
          simp at h
        · intro st' h
          simp at h
          rw [← h]
          obtain ⟨h1, h2, h3⟩ := hInv
          exact ⟨h1, h2, h3⟩
      · obtain ⟨h1, h2, h3⟩ := hInv
        simp only []
        have hrand : ∀ x ∈ st.rand ++ [rfe], x < p := by
          intro x hx
          rcases List.mem_append.1 hx with hm | hm
          · exact h1 x hm
          · simp at hm
            rw [hm]
            exact rfe_lt hp0 ui none (rng st.rand.length) inputs rfe used hd
        rcases hu : univLookup st.univariate ((j : ℤ) - 1) with _ | u
        · exact ⟨fun st' inputs' h => by simp at h, fun st' h => by simp at h⟩
        · rcases u with q | z
          · simp only []
            rcases hr : (st.rand ++ [rfe])[j - 1]? with _ | rj
            · exact ⟨fun st' inputs' h => by simp at h, fun st' h => by simp at h⟩
            · have hmid : InvB p { st with
                  rand := st.rand ++ [rfe],
                  rand_eval := st.rand_eval ++
                    [(j - 1, symrep p (q.evalNat (pt (j - 1) rj)) % (p : ℤ))] } := by
                refine ⟨hrand, ?_, h3⟩
                intro e he
                rcases List.mem_append.1 he with hm | hm
                · exact h2 e hm
                · simp at hm
                  rw [hm]
                  exact emod_bounds hp0 _
              by_cases hjv : j < v
              · simp only [if_pos hjv]
                exact roundLess_inv hp0 v j _ _ _ hmid
              · simp only [if_neg hjv]
                obtain ⟨m1, m2, m3⟩ := hmid
                exact finalTail_inv hp0 v j g _ _ ⟨m1, m2, m3⟩
          · exact ⟨fun st' inputs' h => by simp at h, fun st' h => by simp at h⟩

theorem scLoop_inv {p : ℕ} (hp0 : 0 < p) (v : ℕ) (g : Mv p) (ui : Bool)
    (rng : ℕ → ℕ) :
    ∀ (js : List ℕ) (inputs : List Response) (st st' : SCState p), InvB p st →
      scLoop v g ui rng js inputs st = SCResult.result st' → InvB p st' := by
  intro js
  induction js with
  | nil =>
    intro inputs st st' hInv h
    simp only [scLoop] at h
    injection h with h2
    rw [← h2]
    exact hInv
  | cons j rest ih =>
    intro inputs st st' hInv h
    simp only [scLoop] at h
    rcases hr : scRound v g ui rng j inputs st with ⟨st2, inputs2⟩ | r
    · rw [hr] at h
      simp only [] at h
      exact ih inputs2 st2 st'
        ((scRound_inv hp0 v g ui rng j inputs st hInv).1 st2 inputs2 hr) h
    · rw [hr] at h
      simp only [] at h
      rw [h] at hr
      exact (scRound_inv hp0 v g ui rng j inputs st hInv).2 st' hr

theorem symrep_emod (p a : ℕ) : symrep p a % (p : ℤ) = (a : ℤ) % (p : ℤ) := by
  unfold symrep
  split
  · rfl
  · rw [Int.sub_emod, Int.emod_self, sub_zero, Int.emod_emod_of_dvd _ dvd_rfl]

theorem scAt_eq (p v : ℕ) (g : Mv p) (r : ℕ → ℕ) (j : ℕ) :
    scAt p v g r j = (((univAt p v g r j).evalNat (pt j 0) : ℤ) +
      ((univAt p v g r j).evalNat (pt j 1) : ℤ)) % (p : ℤ) := by
  unfold scAt
  rw [Int.add_emod, symrep_emod, symrep_emod, ← Int.add_emod]

/-- The challenge values stored when the interactive supplier answers with
the integers `ints`: `field(x)` reduces each response modulo `p`. -/
def intChallenges (p : ℕ) (ints : List ℤ) : ℕ → ℕ :=
  fun i => ((ints.getD i 0) % (p : ℤ)).toNat

theorem map_fst_range {α : Type} (F : ℕ → α) (j : ℕ) :
    (((List.range j).map (fun i => (i, F i))).map Prod.fst) = List.range j := by
  rw [List.map_map]
  have hcomp : (Prod.fst ∘ fun i => (i, F i)) = fun (i : ℕ) => i := by
    funext i
    rfl
  rw [hcomp, List.map_id']

/-- C1: evaluating the code at the failing input p = 5, g = 3*X_0 (one
variable).  H = sum of sympy symmetric representatives = 0 + (-2) = -2, not
reduced modulo 5, while sum_check[0] = 3 is canonical, so the honest run's
round-0 consistency check prints CHECK FAILED (first entry false) even
though the final check accepts.  This contradicts the claim that every
round's check passes for the honest prover. -/
theorem c1_honest_round0_check_fails :
    totalSum 5 ⟨1, [(3, [1])]⟩ = -2 ∧
    (sum_check_protocol 5 ⟨1, [(3, [1])]⟩ false (fun _ => 0) []).checksOf
      = some [false, true] := by
  constructor
  · rfl
  · rw [sum_check_protocol, if_pos (by norm_num)]
    rfl

/-- C2: at every round of a v-variable run the verifier check of
`consistency_check` passes exactly when the round's equation holds: at
j = 0 iff H = sum_check[0]; at 0 < j < v iff rand_eval[j-1] = sum_check[j];
at j = v iff rand_eval[v] = sum_check[v]. -/
theorem c2_consistency_check_iff (v : ℕ) (H : ℤ) (re sc : List (ℕ × ℤ)) :
    (∀ s, lookupV sc 0 = some s →
      (consistency_check 0 v H re sc = some true ↔ H = s)) ∧
    (∀ j e s, 0 < j → j < v → lookupV re (j - 1) = some e → lookupV sc j = some s →
      (consistency_check j v H re sc = some true ↔ e = s)) ∧
    (∀ e s, 0 < v → lookupV re v = some e → lookupV sc v = some s →
      (consistency_check v v H re sc = some true ↔ e = s)) := by
  refine ⟨?_, ?_, ?_⟩
  · intro s hs
    simp only [consistency_check, if_pos rfl, hs]
    simp
  · intro j e s h0 hv hre hsc
    simp only [consistency_check]
    rw [if_neg (by omega), if_pos hv, hre, hsc]
    simp
  · intro e s h0 hre hsc
    simp only [consistency_check]
    rw [if_neg (by omega), if_neg (lt_irrefl v), hre, hsc]
    simp

/-- C2 witness: a concrete intermediate round, v = 2, j = 1. -/
theorem c2_consistency_check_iff_witness :
    ((0 : ℕ) < 1 ∧ 1 < 2 ∧
      lookupV [((0 : ℕ), (3 : ℤ)), (2, 9)] 0 = some 3 ∧
      lookupV [((0 : ℕ), (4 : ℤ)), (1, 3), (2, 9)] 1 = some 3) ∧
    (consistency_check 1 2 7 [((0 : ℕ), (3 : ℤ)), (2, 9)]
        [((0 : ℕ), (4 : ℤ)), (1, 3), (2, 9)] = some true ↔ (3 : ℤ) = 3) :=
  ⟨⟨by decide, by decide, by rfl, by rfl⟩,
    (c2_consistency_check_iff 2 7 [((0 : ℕ), (3 : ℤ)), (2, 9)]
      [((0 : ℕ), (4 : ℤ)), (1, 3), (2, 9)]).2.1 1 3 3 (by decide) (by decide)
      (by rfl) (by rfl)⟩

/-- C3: in a Random-mode run, for every round j < v the stored univariate[j]
is the polynomial g with generators 0..j-1 bound to the chosen randoms and
summed over the boolean assignments of generators j+1..v-1, and sum_check[j]
is univariate[j](0) + univariate[j](1) reduced modulo p; this holds for every
choice of random challenges (the rng stream is universally quantified). -/
theorem c3_univariate_reduction_and_sum_check (p : ℕ) (g : Mv p) (rng : ℕ → ℕ)
    (inputs : List Response) (j : ℕ) (hp : Nat.Prime p) (hj : j < g.nvars) :
    sum_check_protocol p g false rng inputs
      = SCResult.result (finalState p g.nvars g (fun i => rng i % p)) ∧
    univLookup (finalState p g.nvars g (fun i => rng i % p)).univariate (j : ℤ)
      = some (UEntry.poly (boolSum
          (bindRands g ((List.range j).map (fun i => rng i % p)))
          (List.range' (j + 1) (g.nvars - 1 - j)))) ∧
    lookupV (finalState p g.nvars g (fun i => rng i % p)).sum_check j
      = some ((((univAt p g.nvars g (fun i => rng i % p) j).evalNat (pt j 0) : ℤ) +
          ((univAt p g.nvars g (fun i => rng i % p) j).evalNat (pt j 1) : ℤ)) % (p : ℤ)) := by
  refine ⟨protocol_random p g rng inputs hp (by omega), ?_, ?_⟩
  · simp only [finalState]
    rw [List.range_eq_range' g.nvars]
    rw [univLookup_range' (fun i => UEntry.poly (univAt p g.nvars g (fun i => rng i % p) i))
      g.nvars 0 j _ (by omega) (by omega)]
    rfl
  · simp only [finalState]
    rw [List.range_eq_range' g.nvars]
    rw [lookupV_range' (fun i => scAt p g.nvars g (fun i => rng i % p) i)
      g.nvars 0 j _ (by omega) (by omega)]
    rw [scAt_eq]

/-- C3 witness: p = 2, g = X_0, round 0. -/
theorem c3_univariate_reduction_and_sum_check_witness :
    (Nat.Prime 2 ∧ 0 < 1) ∧
    sum_check_protocol 2 ⟨1, [(1, [1])]⟩ false (fun _ => 0) []
      = SCResult.result (finalState 2 1 ⟨1, [(1, [1])]⟩ (fun i => (fun _ => 0) i % 2)) :=
  ⟨⟨by norm_num, by decide⟩,
    (c3_univariate_reduction_and_sum_check 2 ⟨1, [(1, [1])]⟩ (fun _ => 0) [] 0
      (by norm_num) (by decide)).1⟩

/-- C4: if the interactive challenge source signals cancellation at round j
(after j - 1 integer responses), the engine returns — it does not raise — the
partial state accumulated through round j-1: univariate and sum_check keyed
by 0..j-1, rand_eval keyed by 0..j-2, and rand holding exactly the j-1
completed challenges. -/
theorem c4_cancellation_returns_partial_state (p : ℕ) (g : Mv p) (rng : ℕ → ℕ)
    (ints : List ℤ) (rest : List Response) (j : ℕ) (hp : Nat.Prime p)
    (h1 : 1 ≤ j) (h2 : j ≤ g.nvars) (hlen : ints.length = j - 1) :
    sum_check_protocol p g true rng (ints.map Response.intVal ++ Response.cancel :: rest)
      = SCResult.result
          { stateAfter p g.nvars g (intChallenges p ints) j with terminated := true } ∧
    (stateAfter p g.nvars g (intChallenges p ints) j).univariate.map Prod.fst
      = List.range j ∧
    (stateAfter p g.nvars g (intChallenges p ints) j).rand_eval.map Prod.fst
      = List.range (j - 1) ∧
    (stateAfter p g.nvars g (intChallenges p ints) j).sum_check.map Prod.fst
      = List.range j ∧
    (stateAfter p g.nvars g (intChallenges p ints) j).rand.length = j - 1 := by
  refine ⟨protocol_cancel p g rng ints rest j hp h1 h2 hlen, ?_, ?_, ?_, ?_⟩
  · exact map_fst_range _ j
  · exact map_fst_range _ (j - 1)
  · exact map_fst_range _ j
  · simp [stateAfter]

/-- C4 witness: cancellation at round 1 of a v = 3 run: univariate and
sum_check populated for round 0 only, rand empty. -/
theorem c4_cancellation_returns_partial_state_witness :
    (Nat.Prime 5 ∧ 1 ≤ 1 ∧ 1 ≤ 3 ∧ ([] : List ℤ).length = 0) ∧
    sum_check_protocol 5 ⟨3, [(1, [1, 1, 1]), (2, [0, 1, 0])]⟩ true (fun _ => 0)
        [Response.cancel]
      = SCResult.result
          { stateAfter 5 3 ⟨3, [(1, [1, 1, 1]), (2, [0, 1, 0])]⟩ (intChallenges 5 []) 1
            with terminated := true } :=
  ⟨⟨by norm_num, by decide, by decide, by rfl⟩,
    (c4_cancellation_returns_partial_state 5 ⟨3, [(1, [1, 1, 1]), (2, [0, 1, 0])]⟩
      (fun _ => 0) [] [] 1 (by norm_num) (by decide) (by decide) (by rfl)).1⟩

/-- C5: a non-prime modulus makes `sum_check_protocol` return the
InvalidModulus rejection before any round executes: the result carries no
round state, no challenge and no check. -/
theorem c5_invalid_modulus_rejected (p : ℕ) (g : Mv p) (ui : Bool) (rng : ℕ → ℕ)
    (inputs : List Response) (h : ¬ Nat.Prime p) :
    sum_check_protocol p g ui rng inputs = SCResult.invalidModulus := by
  rw [sum_check_protocol, if_neg h]

/-- C5 witness: modulus 4. -/
theorem c5_invalid_modulus_rejected_witness :
    ¬ Nat.Prime 4 ∧
    sum_check_protocol 4 ⟨1, [(3, [1])]⟩ false (fun _ => 0) [] = SCResult.invalidModulus :=
  ⟨by norm_num,
    c5_invalid_modulus_rejected 4 ⟨1, [(3, [1])]⟩ false (fun _ => 0) [] (by norm_num)⟩

/-- C6: with a (prime-modulus) run whose challenge source never cancels, the
protocol executes all v + 1 rounds regardless of the check outcomes (the
checks list has length v + 1 and the run is not terminated), and the final
verdict is exactly the round-v check result. -/
theorem c6_checks_never_halt_rounds (p : ℕ) (g : Mv p) (rng : ℕ → ℕ)
    (inputs : List Response) (hp : Nat.Prime p) (hv : 1 ≤ g.nvars) :
    sum_check_protocol p g false rng inputs
      = SCResult.result (finalState p g.nvars g (fun i => rng i % p)) ∧
    (finalState p g.nvars g (fun i => rng i % p)).terminated = false ∧
    (finalState p g.nvars g (fun i => rng i % p)).checks.length = g.nvars + 1 ∧
    (finalState p g.nvars g (fun i => rng i % p)).verdict
      = some (chkFin p g.nvars g (fun i => rng i % p)) := by
  refine ⟨protocol_random p g rng inputs hp hv, rfl, ?_, ?_⟩
  · simp [finalState]
  · simp [SCState.verdict, finalState, List.getLast?_concat]

/-- C6 witness: the C1 failing input, on which the round-0 check fails yet
the run still executes both rounds and ends with the final verdict. -/
theorem c6_checks_never_halt_rounds_witness :
    (Nat.Prime 5 ∧ 1 ≤ 1) ∧
    sum_check_protocol 5 ⟨1, [(3, [1])]⟩ false (fun _ => 0) []
      = SCResult.result (finalState 5 1 ⟨1, [(3, [1])]⟩ (fun i => (fun _ => 0) i % 5)) ∧
    (finalState 5 1 ⟨1, [(3, [1])]⟩ (fun i => (fun _ => 0) i % 5)).checks.length = 2 :=
  ⟨⟨by norm_num, by decide⟩,
    (c6_checks_never_halt_rounds 5 ⟨1, [(3, [1])]⟩ (fun _ => 0) [] (by norm_num)
      (by decide)).1,
    (c6_checks_never_halt_rounds 5 ⟨1, [(3, [1])]⟩ (fun _ => 0) [] (by norm_num)
      (by decide)).2.2.1⟩

/-- C7: every field value stored in a returned protocol state is a canonical
residue: all rand elements are in [0, p), and all rand_eval and sum_check
values are in [0, p), for every mode, random stream and input script. -/
theorem c7_canonical_residues (p : ℕ) (g : Mv p) (ui : Bool) (rng : ℕ → ℕ)
    (inputs : List Response) (st : SCState p)
    (h : sum_check_protocol p g ui rng inputs = SCResult.result st) :
    (∀ x ∈ st.rand, x < p) ∧ (∀ e ∈ st.rand_eval, 0 ≤ e.2 ∧ e.2 < (p : ℤ)) ∧
      (∀ e ∈ st.sum_check, 0 ≤ e.2 ∧ e.2 < (p : ℤ)) := by
  by_cases hp : Nat.Prime p
  · rw [sum_check_protocol, if_pos hp] at h
    refine scLoop_inv hp.pos g.nvars g ui rng (List.range (g.nvars + 1)) inputs
      (initState p g) st ⟨?_, ?_, ?_⟩ h
    · intro x hx
      simp [initState] at hx
    · intro e he
      simp [initState] at he
    · intro e he
      simp [initState] at he
  · rw [sum_check_protocol, if_neg hp] at h
    simp at h

/-- C7 witness: a completed interactive run with a negative supplied integer
(-7 is stored as 3 in GF(5)). -/
theorem c7_canonical_residues_witness :
    sum_check_protocol 5 ⟨1, [(3, [1])]⟩ true (fun _ => 0) [Response.intVal (-7)]
      = SCResult.result (finalState 5 1 ⟨1, [(3, [1])]⟩ (intChallenges 5 [-7])) ∧
    (∀ x ∈ (finalState 5 1 ⟨1, [(3, [1])]⟩ (intChallenges 5 [-7])).rand, x < 5) := by
  have hrun : sum_check_protocol 5 ⟨1, [(3, [1])]⟩ true (fun _ => 0) [Response.intVal (-7)]
      = SCResult.result (finalState 5 1 ⟨1, [(3, [1])]⟩ (intChallenges 5 [-7])) := by
    rw [sum_check_protocol, if_pos (by norm_num)]
    rfl
  exact ⟨hrun, (c7_canonical_residues 5 ⟨1, [(3, [1])]⟩ true (fun _ => 0)
    [Response.intVal (-7)] _ hrun).1⟩

/-- C8 counterexample: in interactive mode the engine calls its challenge
source with max_attempts = None (unbounded retries), so two non-integer
inputs do not exhaust anything: with script [malformed, malformed, 1] the
run completes normally (isTerminated = some false) instead of surfacing an
ExhaustedRetries/Terminated outcome as the claim states. -/
theorem c8_two_malformed_inputs_do_not_terminate :
    (sum_check_protocol 2 ⟨1, [(1, [1])]⟩ true (fun _ => 0)
      [Response.malformed, Response.malformed, Response.intVal 1]).isTerminated
      = some false := by
  rw [sum_check_protocol, if_pos (by norm_num)]
  rfl

/-- C8 amended: `input_random_field_element` called with max_attempts = 2 and
two non-integer inputs does return None (ExhaustedRetries) without crashing,
and whenever the challenge source returns None the engine converts it into a
normal Terminated-style early return of the partial state; but the engine as
written always calls with max_attempts = None, so the retry bound 2 cannot be
reached through `sum_check_protocol`. -/
theorem c8_exhaustion_and_engine_termination :
    (∀ rest : List Response, input_random_field_element (some 2)
        (Response.malformed :: Response.malformed :: rest) = some (none, 2)) ∧
    (∀ (p : ℕ) (g : Mv p) (rng : ℕ → ℕ) (rest : List Response),
      Nat.Prime p → 1 ≤ g.nvars →
      sum_check_protocol p g true rng (Response.cancel :: rest)
        = SCResult.result
            { stateAfter p g.nvars g (intChallenges p []) 1 with terminated := true }) := by
  constructor
  · intro rest
    rfl
  · intro p g rng rest hp hv
    exact protocol_cancel p g rng [] rest 1 hp (le_refl 1) hv rfl

/-- C8 amended witness. -/
theorem c8_exhaustion_and_engine_termination_witness :
    (input_random_field_element (some 2) [Response.malformed, Response.malformed]
      = some (none, 2)) ∧
    (Nat.Prime 2 ∧ 1 ≤ 1) ∧
    sum_check_protocol 2 ⟨1, [(1, [1])]⟩ true (fun _ => 0) [Response.cancel]
      = SCResult.result
          { stateAfter 2 1 ⟨1, [(1, [1])]⟩ (intChallenges 2 []) 1 with terminated := true } :=
  ⟨c8_exhaustion_and_engine_termination.1 [],
    ⟨by norm_num, by decide⟩,
    c8_exhaustion_and_engine_termination.2 2 ⟨1, [(1, [1])]⟩ (fun _ => 0) []
      (by norm_num) (by decide)⟩

/-- C9 counterexample: with v = 0 (a constant polynomial) round 0 takes the
j = v branch, which looks up univariate[-1]; the run fails with a KeyError
outcome instead of ending Accepted, and no final verdict is produced. -/
theorem c9_v0_key_error :
    sum_check_protocol 5 ⟨0, [(3, [])]⟩ false (fun _ => 0) [] = SCResult.keyError ∧
    (sum_check_protocol 5 ⟨0, [(3, [])]⟩ false (fun _ => 0) []).finalVerdict = none := by
  have h : sum_check_protocol 5 ⟨0, [(3, [])]⟩ false (fun _ => 0) [] = SCResult.keyError := by
    rw [sum_check_protocol, if_pos (by norm_num)]
    rfl
  refine ⟨h, ?_⟩
  rw [h]
  rfl

/-- C9 amended: for every polynomial with zero generators, the run over a
prime modulus fails with the KeyError outcome at round 0 (the
univariate[-1]/rand[-1] accesses of the j = v branch), drawing no challenge
and running no check; it does not end Accepted. -/
theorem c9_v0_run_errors (p : ℕ) (g : Mv p) (ui : Bool) (rng : ℕ → ℕ)
    (inputs : List Response) (hp : Nat.Prime p) (hv : g.nvars = 0) :
    sum_check_protocol p g ui rng inputs = SCResult.keyError := by
  rw [sum_check_protocol, if_pos hp, hv]
  rfl

/-- C9 amended witness. -/
theorem c9_v0_run_errors_witness :
    (Nat.Prime 5 ∧ Mv.nvars (⟨0, [(3, [])]⟩ : Mv 5) = 0) ∧
    sum_check_protocol 5 ⟨0, [(3, [])]⟩ true (fun _ => 1) [Response.malformed]
      = SCResult.keyError :=
  ⟨⟨by norm_num, rfl⟩,
    c9_v0_run_errors 5 ⟨0, [(3, [])]⟩ true (fun _ => 1) [Response.malformed]
      (by norm_num) rfl⟩

/-- C10: `input_random_field_element` with max_attempts = 0 returns None
immediately, consuming zero inputs — the retry loop is never entered, so no
input is requested at all, whatever the scripted responses are. -/
theorem c10_zero_max_attempts_returns_immediately (inputs : List Response) :
    input_random_field_element (some 0) inputs = some (none, 0) := by
  simp only [input_random_field_element]
  rw [irfeRun.eq_def]
  simp

/-- C10 witness: with max_attempts = 0 even a malformed-only script is never
consulted. -/
theorem c10_zero_max_attempts_returns_immediately_witness :
    input_random_field_element (some 0) [Response.malformed] = some (none, 0) :=
  c10_zero_max_attempts_returns_immediately [Response.malformed]
